import Mathlib

/-!
Verification of the DSP core of the `loveless-delay` audio plugin
(`src/dsp/delay_line.rs`, `src/dsp/filter.rs`, `src/lib.rs`).

Modelling conventions:
* `f32` sample values and parameters are modelled as exact rationals `ℚ`
  (every finite `f32` is a rational; the claims under scrutiny are about
  the algebraic data flow, not about rounding).
* Quantities whose computation involves transcendental functions
  (`exp`, `log10`) are modelled over `ℝ`.
* Machine integers (`usize`, `u32`) are modelled as `ℕ` with the same
  truncating subtraction / saturating-cast behaviour made explicit.
* Rust indexing `buffer[i]` (which panics out of range) is modelled with
  `List.getD _ _ 0`; the in-bounds facts are proved separately, so the
  default branch is never what a theorem's truth relies on.
* `f32::clamp(lo, hi)` asserts `lo ≤ hi` and panics otherwise; where the
  bounds can genuinely cross (`OnePoleFilter::set_cutoff`) the model
  returns `Option` with `none` for the panic.  In `DelayLine::read` the
  bounds are `0` and `buffer_len - 1`, which are ordered whenever
  `buffer_len ≥ 1`; all theorems about `read` carry that hypothesis
  (`buffer_len = 0` also makes the Rust `% buffer_len` panic, see C3).
-/

/-- The ring buffer of `src/dsp/delay_line.rs`: a circular buffer of
samples (`buffer`), the write head (`write_pos`) and the cached length
(`buffer_len`). -/
structure DelayLine where
  buffer : List ℚ
  write_pos : ℕ
  buffer_len : ℕ

namespace DelayLine

/-- `DelayLine::new(max_length: usize)`: `vec![0.0; max_length]`,
`write_pos = 0`, `buffer_len = max_length`.  Note the Rust signature
takes a plain `usize` and performs no positivity check. -/
def new (max_length : ℕ) : DelayLine :=
  ⟨List.replicate max_length 0, 0, max_length⟩

/-- `DelayLine::write`: `self.buffer[self.write_pos] = sample` (no cursor
advance).  `List.set` is a no-op out of range; `write_pos < buffer_len`
holds for every line built by `new`/`advance`. -/
def write (dl : DelayLine) (sample : ℚ) : DelayLine :=
  { dl with buffer := dl.buffer.set dl.write_pos sample }

/-- The clamp at the top of `DelayLine::read`:
`delay_samples.clamp(0.0, (self.buffer_len - 1) as f32)`.
Rust `clamp` is "raise to the min, then cap at the max"; the bounds are
ordered since `0 ≤ buffer_len - 1` (ℕ subtraction truncates at 0 exactly
like the well-defined `buffer_len ≥ 1` case in Rust). -/
def delay_clamped (dl : DelayLine) (delay_samples : ℚ) : ℚ :=
  min (max delay_samples 0) ((dl.buffer_len - 1 : ℕ) : ℚ)

/-- `let delay_int = delay_clamped as usize`: truncation toward zero of a
non-negative value, i.e. the floor. -/
def delay_int (dl : DelayLine) (delay_samples : ℚ) : ℕ :=
  ⌊dl.delay_clamped delay_samples⌋₊

/-- `let delay_frac = delay_clamped - delay_int as f32`. -/
def delay_frac (dl : DelayLine) (delay_samples : ℚ) : ℚ :=
  dl.delay_clamped delay_samples - (dl.delay_int delay_samples : ℚ)

/-- `let index_a = (self.write_pos + self.buffer_len - delay_int) % self.buffer_len`
(`usize` arithmetic; the subtraction cannot underflow because
`delay_int ≤ buffer_len - 1`). -/
def index_a (dl : DelayLine) (delay_samples : ℚ) : ℕ :=
  (dl.write_pos + dl.buffer_len - dl.delay_int delay_samples) % dl.buffer_len

/-- `let index_b = (self.write_pos + self.buffer_len - delay_int - 1) % self.buffer_len`. -/
def index_b (dl : DelayLine) (delay_samples : ℚ) : ℕ :=
  (dl.write_pos + dl.buffer_len - dl.delay_int delay_samples - 1) % dl.buffer_len

/-- `DelayLine::read`: linear interpolation
`sample_a * (1.0 - delay_frac) + sample_b * delay_frac` between the two
ring positions `index_a` and `index_b`.  Takes `&self` in Rust: no state
is modified. -/
def read (dl : DelayLine) (delay_samples : ℚ) : ℚ :=
  let sample_a := dl.buffer.getD (dl.index_a delay_samples) 0
  let sample_b := dl.buffer.getD (dl.index_b delay_samples) 0
  sample_a * (1 - dl.delay_frac delay_samples) + sample_b * dl.delay_frac delay_samples

/-- `DelayLine::advance`: `self.write_pos = (self.write_pos + 1) % self.buffer_len`. -/
def advance (dl : DelayLine) : DelayLine :=
  { dl with write_pos := (dl.write_pos + 1) % dl.buffer_len }

/-- `DelayLine::clear`: `self.buffer.fill(0.0); self.write_pos = 0`. -/
def clear (dl : DelayLine) : DelayLine :=
  { dl with buffer := List.replicate dl.buffer.length 0, write_pos := 0 }

end DelayLine

/-- The one-pole lowpass of `src/dsp/filter.rs`: `coefficient` and the
single state cell `prev_output`.  The two fields hold `f32` values,
modelled as rationals. -/
structure OnePoleFilter where
  coefficient : ℚ
  prev_output : ℚ

namespace OnePoleFilter

/-- `OnePoleFilter::new`: coefficient 0 (passthrough), `prev_output` 0. -/
def new : OnePoleFilter := ⟨0, 0⟩

/-- `OnePoleFilter::process`:
`output = (1 - coefficient) * input + coefficient * prev_output`, stored
into `prev_output` and returned.  Modelled as (new state, output). -/
def process (f : OnePoleFilter) (input : ℚ) : OnePoleFilter × ℚ :=
  let output := (1 - f.coefficient) * input + f.coefficient * f.prev_output
  ({ f with prev_output := output }, output)

/-- `OnePoleFilter::reset`: `self.prev_output = 0.0`. -/
def reset (f : OnePoleFilter) : OnePoleFilter :=
  { f with prev_output := 0 }

end OnePoleFilter

/-- The value `OnePoleFilter::set_cutoff` stores into `self.coefficient`:
`let safe_cutoff = cutoff_hz.clamp(20.0, sample_rate * 0.49);`
`self.coefficient = (-2.0 * PI * safe_cutoff / sample_rate).exp()`.
Modelled over `ℝ` because of `exp`.  Rust's `f32::clamp` asserts
`min ≤ max` and panics otherwise, so when `sample_rate * 0.49 < 20` the
call panics; that branch is modelled as `none`. -/
noncomputable def set_cutoff_coefficient (cutoff_hz sample_rate : ℝ) : Option ℝ :=
  if 20 ≤ sample_rate * 0.49 then
    some (Real.exp (-2 * Real.pi * min (max cutoff_hz 20) (sample_rate * 0.49) / sample_rate))
  else
    none

/-- `calculate_delay_samples` from `src/lib.rs`:
`delay_ms * sample_rate / 1000.0`. -/
noncomputable def calculate_delay_samples (delay_ms sample_rate : ℝ) : ℝ :=
  delay_ms * sample_rate / 1000

/-- Model of Rust's saturating `f32 as u32` cast for finite arguments:
truncate toward zero (for the values cast here the negative case floors
to 0 anyway), clamp into `[0, 2^32 - 1]`. -/
noncomputable def cast_u32 (x : ℝ) : ℕ :=
  min (max ⌊x⌋ 0).toNat (2 ^ 32 - 1)

/-- The tail-length computation at the end of `LovelessDelay::process`:
`if feedback > 0.001 { let repeats = -3.0 / feedback.log10();`
`(repeats * delay_samps) as u32 } else { delay_samps as u32 }`
with `delay_samps = calculate_delay_samples(delay_ms, sample_rate)`. -/
noncomputable def tail_samples (delay_ms feedback sample_rate : ℝ) : ℕ :=
  let delay_samps := calculate_delay_samples delay_ms sample_rate
  if 0.001 < feedback then
    let repeats := -3 / Real.logb 10 feedback
    cast_u32 (repeats * delay_samps)
  else
    cast_u32 delay_samps

/-- Result of one per-channel, per-sample pass of `LovelessDelay::process`:
the updated delay line and filter, and the output sample. -/
structure ChannelOut where
  delay_line : DelayLine
  filt : OnePoleFilter
  out : ℚ

/-- The body of the per-channel loop in `LovelessDelay::process`
(src/lib.rs, steps 1–6) for one sample tick:
`filter.set_cutoff(...)` (the installed coefficient value — modelled in
`ℝ` by `set_cutoff_coefficient` — enters here as the parameter `coeff`,
since each claim about the data flow holds for every coefficient), then
`let delayed_sample = delay_line.read(delay_samps);`
`let filtered = filter.process(delayed_sample);`
`let feedback_sample = filtered * feedback;`
`delay_line.write(input_sample + feedback_sample);`
`*sample = input_sample * (1.0 - mix) + delayed_sample * mix;`
`delay_line.advance();`. -/
def processChannelSample (delay_line : DelayLine) (filt : OnePoleFilter)
    (coeff delay_samps feedback mix input_sample : ℚ) : ChannelOut :=
  let filt := { filt with coefficient := coeff }
  let delayed_sample := delay_line.read delay_samps
  let fp := filt.process delayed_sample
  let filtered := fp.2
  let feedback_sample := filtered * feedback
  let delay_line := delay_line.write (input_sample + feedback_sample)
  let out := input_sample * (1 - mix) + delayed_sample * mix
  let delay_line := delay_line.advance
  ⟨delay_line, fp.1, out⟩

/-- The inner channel loop of `LovelessDelay::process` for one sample
tick, starting at channel index `channel_idx`:
`for (channel_idx, sample) in channel_samples.iter_mut().enumerate()`
with the two `let-else { continue }` guards on
`self.delay_lines.get_mut(channel_idx)` and
`self.filters.get_mut(channel_idx)`.  Channels are independent, so the
outputs of one tick depend only on the pre-tick states; this function
returns the output samples. -/
def processTickFrom (dls : List DelayLine) (fs : List OnePoleFilter)
    (coeff delay_samps feedback mix : ℚ) : ℕ → List ℚ → List ℚ
  | _, [] => []
  | channel_idx, s :: rest =>
    (match dls[channel_idx]?, fs[channel_idx]? with
      | some dl, some filt =>
        (processChannelSample dl filt coeff delay_samps feedback mix s).out
      | _, _ => s) :: processTickFrom dls fs coeff delay_samps feedback mix (channel_idx + 1) rest

/-- One full tick across all channels (the channel loop started at index 0). -/
def processTick (dls : List DelayLine) (fs : List OnePoleFilter)
    (coeff delay_samps feedback mix : ℚ) (samples : List ℚ) : List ℚ :=
  processTickFrom dls fs coeff delay_samps feedback mix 0 samples

/-- The write-then-advance loop of the repository's wrap-around test:
one `write` followed by one `advance` per value. -/
def feedValues (dl : DelayLine) (vs : List ℚ) : DelayLine :=
  vs.foldl (fun d v => (d.write v).advance) dl

-- ─────────────────────────────────────────────────────────────────────
-- Helper lemmas
-- ─────────────────────────────────────────────────────────────────────

lemma getD_eq_zero_of_all_zero {l : List ℚ} (h : ∀ x ∈ l, x = 0) (n : ℕ) :
    l.getD n 0 = 0 := by
  rw [List.getD_eq_getElem?_getD]
  cases hx : l[n]? with
  | none => rfl
  | some x => exact h x (List.getElem?_mem hx)

lemma read_eq_zero_of_all_zero {dl : DelayLine} (h : ∀ x ∈ dl.buffer, x = 0)
    (q : ℚ) : dl.read q = 0 := by
  unfold DelayLine.read
  rw [getD_eq_zero_of_all_zero h, getD_eq_zero_of_all_zero h]
  ring

lemma delay_clamped_eq_self {dl : DelayLine} {q : ℚ} (h0 : 0 ≤ q)
    (h1 : q ≤ ((dl.buffer_len - 1 : ℕ) : ℚ)) : dl.delay_clamped q = q := by
  unfold DelayLine.delay_clamped
  rw [max_eq_left h0, min_eq_left h1]

lemma delay_clamped_eq_hi {dl : DelayLine} {q : ℚ}
    (h : ((dl.buffer_len - 1 : ℕ) : ℚ) ≤ q) :
    dl.delay_clamped q = ((dl.buffer_len - 1 : ℕ) : ℚ) := by
  unfold DelayLine.delay_clamped
  exact min_eq_right (le_trans h (le_max_left q 0))

lemma read_of_clamped_nat {dl : DelayLine} {q : ℚ} {n : ℕ}
    (h : dl.delay_clamped q = (n : ℚ)) :
    dl.read q = dl.buffer.getD ((dl.write_pos + dl.buffer_len - n) % dl.buffer_len) 0 := by
  have hint : dl.delay_int q = n := by
    unfold DelayLine.delay_int
    rw [h, Nat.floor_natCast]
  have hfrac : dl.delay_frac q = 0 := by
    unfold DelayLine.delay_frac
    rw [h, hint]
    ring
  unfold DelayLine.read DelayLine.index_a
  rw [hfrac, hint]
  ring

lemma processTickFrom_length (dls : List DelayLine) (fs : List OnePoleFilter)
    (coeff delay_samps feedback mix : ℚ) (i : ℕ) (samples : List ℚ) :
    (processTickFrom dls fs coeff delay_samps feedback mix i samples).length
      = samples.length := by
  induction samples generalizing i with
  | nil => rfl
  | cons s rest ih => simp [processTickFrom, ih]

lemma processTickFrom_getElem?_of_missing (dls : List DelayLine)
    (fs : List OnePoleFilter) (coeff delay_samps feedback mix : ℚ)
    (samples : List ℚ) (i j : ℕ)
    (h : dls.length ≤ i + j ∨ fs.length ≤ i + j) :
    (processTickFrom dls fs coeff delay_samps feedback mix i samples)[j]?
      = samples[j]? := by
  induction samples generalizing i j with
  | nil => rfl
  | cons s rest ih =>
    cases j with
    | zero =>
      rcases h with h | h
      · have hd : dls[i]? = none := List.getElem?_eq_none (by omega)
        cases hf : fs[i]? <;>
          simp [processTickFrom, hd, hf]
      · have hf : fs[i]? = none := List.getElem?_eq_none (by omega)
        cases hd : dls[i]? <;>
          simp [processTickFrom, hd, hf]
    | succ j =>
      simp only [processTickFrom, List.getElem?_cons_succ]
      exact ih (i + 1) j (by omega)

-- ─────────────────────────────────────────────────────────────────────
-- Claims
-- ─────────────────────────────────────────────────────────────────────

/-- C1: in every per-sample tick of the processing loop, the output
sample equals `input_sample * (1 - mix) + delayed * mix` where `delayed`
is the pre-filter value read from the delay line; the filtered value
only enters the sample written back into the delay line. -/
theorem C1_output_mix_uses_pre_filter_delayed (dl : DelayLine)
    (f : OnePoleFilter) (coeff delay_samps feedback mix input_sample : ℚ) :
    (processChannelSample dl f coeff delay_samps feedback mix input_sample).out
        = input_sample * (1 - mix) + dl.read delay_samps * mix
    ∧ (processChannelSample dl f coeff delay_samps feedback mix input_sample).delay_line
        = (dl.write (input_sample +
            (OnePoleFilter.process { f with coefficient := coeff }
              (dl.read delay_samps)).2 * feedback)).advance :=
  ⟨rfl, rfl⟩

/-- C2: for a delay line of capacity ≥ 1, `read(delay_amount)` clamps the
argument to `[0, capacity-1]`, splits it into integer part `d` and
fractional part `f`, forms the ring indices
`a = (write_cursor + capacity - d) % capacity` and
`b = (write_cursor + capacity - d - 1) % capacity`, and returns
`storage[a] * (1 - f) + storage[b] * f`; when `f = 0` the result is
exactly `storage[a]`.  (`read` takes `&self`, so no state changes.) -/
theorem C2_read_clamp_split_interpolate (dl : DelayLine) (q : ℚ)
    (hcap : 1 ≤ dl.buffer_len) (c : ℚ) (d : ℕ) (fr : ℚ)
    (hc : c = min (max q 0) ((dl.buffer_len - 1 : ℕ) : ℚ))
    (hd : d = ⌊c⌋₊) (hfr : fr = c - (d : ℚ)) :
    dl.read q
        = dl.buffer.getD ((dl.write_pos + dl.buffer_len - d) % dl.buffer_len) 0 * (1 - fr)
          + dl.buffer.getD ((dl.write_pos + dl.buffer_len - d - 1) % dl.buffer_len) 0 * fr
    ∧ (fr = 0 →
        dl.read q
          = dl.buffer.getD ((dl.write_pos + dl.buffer_len - d) % dl.buffer_len) 0) := by
  subst hc hd hfr
  refine ⟨rfl, fun h0 => ?_⟩
  have h1 : dl.read q
      = dl.buffer.getD ((dl.write_pos + dl.buffer_len - ⌊min (max q 0) ((dl.buffer_len - 1 : ℕ) : ℚ)⌋₊) % dl.buffer_len) 0
          * (1 - (min (max q 0) ((dl.buffer_len - 1 : ℕ) : ℚ) - (⌊min (max q 0) ((dl.buffer_len - 1 : ℕ) : ℚ)⌋₊ : ℚ)))
        + dl.buffer.getD ((dl.write_pos + dl.buffer_len - ⌊min (max q 0) ((dl.buffer_len - 1 : ℕ) : ℚ)⌋₊ - 1) % dl.buffer_len) 0
          * (min (max q 0) ((dl.buffer_len - 1 : ℕ) : ℚ) - (⌊min (max q 0) ((dl.buffer_len - 1 : ℕ) : ℚ)⌋₊ : ℚ)) := rfl
  rw [h1, h0]
  ring

/-- C2 witness: capacity-4 line, delay amount 2 (so `c = 2`, `d = 2`,
`f = 0`). -/
theorem C2_read_clamp_split_interpolate_witness :
    (1 ≤ (DelayLine.new 4).buffer_len)
    ∧ ((2 : ℚ) = min (max 2 0) (((DelayLine.new 4).buffer_len - 1 : ℕ) : ℚ))
    ∧ ((2 : ℕ) = ⌊(2 : ℚ)⌋₊)
    ∧ ((0 : ℚ) = 2 - ((2 : ℕ) : ℚ))
    ∧ ((DelayLine.new 4).read 2
          = (DelayLine.new 4).buffer.getD
              (((DelayLine.new 4).write_pos + (DelayLine.new 4).buffer_len - 2)
                % (DelayLine.new 4).buffer_len) 0 * (1 - 0)
            + (DelayLine.new 4).buffer.getD
              (((DelayLine.new 4).write_pos + (DelayLine.new 4).buffer_len - 2 - 1)
                % (DelayLine.new 4).buffer_len) 0 * 0
        ∧ ((0 : ℚ) = 0 →
            (DelayLine.new 4).read 2
              = (DelayLine.new 4).buffer.getD
                  (((DelayLine.new 4).write_pos + (DelayLine.new 4).buffer_len - 2)
                    % (DelayLine.new 4).buffer_len) 0)) := by
  have h1 : 1 ≤ (DelayLine.new 4).buffer_len := by norm_num [DelayLine.new]
  have h2 : (2 : ℚ) = min (max 2 0) (((DelayLine.new 4).buffer_len - 1 : ℕ) : ℚ) := by
    show (2 : ℚ) = min (max 2 0) ((3 : ℕ) : ℚ)
    norm_num [min_def, max_def]
  have h3 : (2 : ℕ) = ⌊(2 : ℚ)⌋₊ := by
    rw [show (2 : ℚ) = ((2 : ℕ) : ℚ) by norm_num, Nat.floor_natCast]
  have h4 : (0 : ℚ) = 2 - ((2 : ℕ) : ℚ) := by norm_num
  exact ⟨h1, h2, h3, h4, C2_read_clamp_split_interpolate (DelayLine.new 4) 2 h1 2 2 0 h2 h3 h4⟩

/-- C3: `DelayLine::new(0)` is accepted — the constructor takes a plain
`usize`, performs no positivity check, and hands back a zero-capacity
line (whose `read`/`advance` then hit `% 0` at runtime).  The caller in
`LovelessDelay::initialize` believes the constructor takes `NonZeroUsize`;
the claim describes the intended construction-time rejection, which the
constructor as written does not perform. -/
theorem C3_new_accepts_zero_capacity :
    (DelayLine.new 0).buffer = [] ∧ (DelayLine.new 0).write_pos = 0
      ∧ (DelayLine.new 0).buffer_len = 0 :=
  ⟨rfl, rfl, rfl⟩

/-- C4: the tail estimate is
`(-3 / log10 feedback) * delay_samples` cast to `u32` when
`feedback > 0.001`, and `delay_samples` cast to `u32` otherwise, with
`delay_samples = delay_ms * sample_rate / 1000`. -/
theorem C4_tail_estimate (delay_ms feedback sample_rate : ℝ) :
    tail_samples delay_ms feedback sample_rate
      = if 0.001 < feedback then
          cast_u32 (-3 / Real.logb 10 feedback * (delay_ms * sample_rate / 1000))
        else
          cast_u32 (delay_ms * sample_rate / 1000) := rfl

/-- C5 counterexample: at `sample_rate = 10` (a positive sample rate) the
clamp bounds cross (`10 * 0.49 < 20`), so `f32::clamp` panics and no
coefficient is set — the claim's equation fails for this input. -/
theorem C5_low_rate_panics : set_cutoff_coefficient 1000 10 = none
    ∧ set_cutoff_coefficient 1000 10
        ≠ some (Real.exp (-2 * Real.pi * min (max (1000 : ℝ) 20) ((10 : ℝ) * 0.49) / 10)) := by
  have h : set_cutoff_coefficient 1000 10 = none := by
    unfold set_cutoff_coefficient
    rw [if_neg (by norm_num : ¬ (20 : ℝ) ≤ 10 * 0.49)]
  exact ⟨h, by rw [h]; exact fun hs => Option.noConfusion hs⟩

/-- C5 (amended): for every sample rate large enough that the clamp
bounds are ordered (`20 ≤ 0.49 * sample_rate`), `set_cutoff` clamps the
cutoff to `[20, 0.49 * sample_rate]` and stores
`exp(-2π * clamped / sample_rate)`; within the clamp range a higher
cutoff yields a strictly smaller coefficient. -/
theorem C5_cutoff_clamp_exp_antitone (c₁ c₂ sr : ℝ) (hsr : 0 < sr)
    (hb : 20 ≤ sr * 0.49) (h1 : 20 ≤ c₁) (h12 : c₁ < c₂)
    (h2 : c₂ ≤ 0.49 * sr) :
    (∀ c : ℝ, set_cutoff_coefficient c sr
        = some (Real.exp (-2 * Real.pi * min (max c 20) (sr * 0.49) / sr)))
    ∧ set_cutoff_coefficient c₁ sr = some (Real.exp (-2 * Real.pi * c₁ / sr))
    ∧ set_cutoff_coefficient c₂ sr = some (Real.exp (-2 * Real.pi * c₂ / sr))
    ∧ Real.exp (-2 * Real.pi * c₂ / sr) < Real.exp (-2 * Real.pi * c₁ / sr) := by
  have hgen : ∀ c : ℝ, set_cutoff_coefficient c sr
      = some (Real.exp (-2 * Real.pi * min (max c 20) (sr * 0.49) / sr)) := by
    intro c
    unfold set_cutoff_coefficient
    rw [if_pos hb]
  have hcl1 : min (max c₁ 20) (sr * 0.49) = c₁ := by
    rw [max_eq_left h1]
    refine min_eq_left ?_
    calc c₁ ≤ 0.49 * sr := le_trans h12.le h2
    _ = sr * 0.49 := mul_comm _ _
  have hcl2 : min (max c₂ 20) (sr * 0.49) = c₂ := by
    rw [max_eq_left (le_trans h1 h12.le)]
    refine min_eq_left ?_
    calc c₂ ≤ 0.49 * sr := h2
    _ = sr * 0.49 := mul_comm _ _
  have hπ : (0 : ℝ) < Real.pi := Real.pi_pos
  have hexp : -2 * Real.pi * c₂ / sr < -2 * Real.pi * c₁ / sr := by
    apply div_lt_div_of_pos_right ?_ hsr
    nlinarith
  exact ⟨hgen, by rw [hgen, hcl1], by rw [hgen, hcl2], Real.exp_lt_exp.mpr hexp⟩

/-- C5 witness: sample rate 44100, cutoffs 100 < 200, both inside the
clamp range. -/
theorem C5_cutoff_clamp_exp_antitone_witness :
    ((0 : ℝ) < 44100) ∧ ((20 : ℝ) ≤ 44100 * 0.49) ∧ ((20 : ℝ) ≤ 100)
    ∧ ((100 : ℝ) < 200) ∧ ((200 : ℝ) ≤ 0.49 * 44100)
    ∧ Real.exp (-2 * Real.pi * 200 / 44100) < Real.exp (-2 * Real.pi * 100 / 44100) :=
  ⟨by norm_num, by norm_num, by norm_num, by norm_num, by norm_num,
    (C5_cutoff_clamp_exp_antitone 100 200 44100 (by norm_num) (by norm_num)
      (by norm_num) (by norm_num) (by norm_num)).2.2.2⟩

/-- C6: `process(x)` returns
`(1 - coefficient) * x + coefficient * prev_output`, stores that value
into `prev_output` (and touches nothing else), and with
`coefficient = 0` it is the identity on arbitrary inputs. -/
theorem C6_filter_process_formula (f : OnePoleFilter) (x : ℚ) :
    (f.process x).2 = (1 - f.coefficient) * x + f.coefficient * f.prev_output
    ∧ (f.process x).1.prev_output = (f.process x).2
    ∧ (f.process x).1.coefficient = f.coefficient
    ∧ (f.coefficient = 0 → (f.process x).2 = x) := by
  refine ⟨rfl, rfl, rfl, fun h => ?_⟩
  show (1 - f.coefficient) * x + f.coefficient * f.prev_output = x
  rw [h]
  ring

/-- C6 witness: a filter with coefficient 0 but non-zero memory passes
the input through unchanged. -/
theorem C6_filter_process_formula_witness :
    ((⟨0, 3⟩ : OnePoleFilter).coefficient = 0)
    ∧ ((⟨0, 3⟩ : OnePoleFilter).process 5).2 = 5 :=
  ⟨rfl, (C6_filter_process_formula ⟨0, 3⟩ 5).2.2.2 rfl⟩

/-- C7 counterexample: the capacity-4 line fed `0,1,2,3,4,5` does NOT
return `2.0` at delay `5.0` — the clamp caps the delay at
`capacity - 1 = 3`, and 3 samples behind the write cursor sits `3.0`,
not the oldest retained value `2.0` (which lies 4 samples back). -/
theorem C7_read_five_is_not_two :
    (feedValues (DelayLine.new 4) [0, 1, 2, 3, 4, 5]).read 5 ≠ 2 := by
  have hfeed : feedValues (DelayLine.new 4) [0, 1, 2, 3, 4, 5]
      = ⟨[4, 5, 2, 3], 2, 4⟩ := rfl
  rw [hfeed]
  have hcl : (⟨[4, 5, 2, 3], 2, 4⟩ : DelayLine).delay_clamped 5 = ((3 : ℕ) : ℚ) := by
    rw [delay_clamped_eq_hi (by norm_num)]
    norm_num
  rw [read_of_clamped_nat hcl]
  decide

/-- C7 (amended): the capacity-4 line fed `0,1,2,3,4,5` (one write plus
one advance per value) returns `5.0` at delay `1.0`; at delay `5.0` the
delay is clamped to `capacity - 1 = 3` and the line returns `3.0` (the
oldest value reachable under the clamp — `2.0`, the oldest value still
physically in storage, lies 4 samples back and is not reachable). -/
theorem C7_wrap_around_reads :
    (feedValues (DelayLine.new 4) [0, 1, 2, 3, 4, 5]).read 1 = 5
    ∧ (feedValues (DelayLine.new 4) [0, 1, 2, 3, 4, 5]).read 5 = 3 := by
  have hfeed : feedValues (DelayLine.new 4) [0, 1, 2, 3, 4, 5]
      = ⟨[4, 5, 2, 3], 2, 4⟩ := rfl
  rw [hfeed]
  constructor
  · have hcl : (⟨[4, 5, 2, 3], 2, 4⟩ : DelayLine).delay_clamped 1 = ((1 : ℕ) : ℚ) := by
      rw [delay_clamped_eq_self (by norm_num) (by norm_num)]
      norm_num
    rw [read_of_clamped_nat hcl]
    decide
  · have hcl : (⟨[4, 5, 2, 3], 2, 4⟩ : DelayLine).delay_clamped 5 = ((3 : ℕ) : ℚ) := by
      rw [delay_clamped_eq_hi (by norm_num)]
      norm_num
    rw [read_of_clamped_nat hcl]
    decide

/-- C8: during a tick, a channel index with no delay line or no filter is
skipped — its sample passes through unchanged — while the block as a
whole still produces one output per input sample. -/
theorem C8_missing_channel_state_skipped (dls : List DelayLine)
    (fs : List OnePoleFilter) (coeff delay_samps feedback mix : ℚ)
    (samples : List ℚ) (idx : ℕ)
    (h : dls.length ≤ idx ∨ fs.length ≤ idx) :
    (processTick dls fs coeff delay_samps feedback mix samples).length
        = samples.length
    ∧ (processTick dls fs coeff delay_samps feedback mix samples)[idx]?
        = samples[idx]? := by
  refine ⟨processTickFrom_length dls fs coeff delay_samps feedback mix 0 samples, ?_⟩
  exact processTickFrom_getElem?_of_missing dls fs coeff delay_samps feedback mix
    samples 0 idx (by omega)

/-- C8 witness: one delay line, no filters, two samples — channel 1 has a
sample but no state, so its sample `4` passes through unchanged. -/
theorem C8_missing_channel_state_skipped_witness :
    (([DelayLine.new 2].length ≤ 1 ∨ ([] : List OnePoleFilter).length ≤ 1))
    ∧ (processTick [DelayLine.new 2] [] 0 1 0 1 [3, 4]).length = ([3, 4] : List ℚ).length
    ∧ (processTick [DelayLine.new 2] [] 0 1 0 1 [3, 4])[1]? = ([3, 4] : List ℚ)[1]? :=
  ⟨Or.inr (by norm_num),
    (C8_missing_channel_state_skipped [DelayLine.new 2] [] 0 1 0 1 [3, 4] 1
      (Or.inr (by norm_num))).1,
    (C8_missing_channel_state_skipped [DelayLine.new 2] [] 0 1 0 1 [3, 4] 1
      (Or.inr (by norm_num))).2⟩

/-- C9: a freshly constructed line has all-zero storage and cursor 0, and
reads `0.0` at every delay amount in `[0, capacity-1]`; `clear()` zeroes
all storage and resets the cursor to 0, after which reads are `0.0`
again; `OnePoleFilter::reset` zeroes `prev_output` (and only that). -/
theorem C9_silence_after_new_and_clear (cap : ℕ) (hcap : 1 ≤ cap)
    (dl : DelayLine) (hdl : 1 ≤ dl.buffer_len) (f : OnePoleFilter)
    (q r : ℚ) (hq0 : 0 ≤ q) (hq : q ≤ ((cap - 1 : ℕ) : ℚ))
    (hr0 : 0 ≤ r) (hr : r ≤ ((dl.buffer_len - 1 : ℕ) : ℚ)) :
    (DelayLine.new cap).buffer = List.replicate cap 0
    ∧ (DelayLine.new cap).write_pos = 0
    ∧ (DelayLine.new cap).read q = 0
    ∧ dl.clear.buffer = List.replicate dl.buffer.length 0
    ∧ dl.clear.write_pos = 0
    ∧ dl.clear.read r = 0
    ∧ f.reset.prev_output = 0
    ∧ f.reset.coefficient = f.coefficient := by
  refine ⟨rfl, rfl, ?_, rfl, rfl, ?_, rfl, rfl⟩
  · exact read_eq_zero_of_all_zero
      (fun x hx => List.eq_of_mem_replicate hx) q
  · exact read_eq_zero_of_all_zero
      (fun x hx => List.eq_of_mem_replicate hx) r

/-- C9 witness: capacity 4, a line with non-trivial contents, a filter
with non-zero memory, delay amounts 2 and 1. -/
theorem C9_silence_after_new_and_clear_witness :
    (1 ≤ 4) ∧ (1 ≤ (feedValues (DelayLine.new 4) [1, 2, 3, 4]).buffer_len)
    ∧ ((0 : ℚ) ≤ 2) ∧ ((2 : ℚ) ≤ ((4 - 1 : ℕ) : ℚ))
    ∧ ((0 : ℚ) ≤ 1)
    ∧ ((1 : ℚ) ≤ (((feedValues (DelayLine.new 4) [1, 2, 3, 4]).buffer_len - 1 : ℕ) : ℚ))
    ∧ (DelayLine.new 4).read 2 = 0
    ∧ (feedValues (DelayLine.new 4) [1, 2, 3, 4]).clear.read 1 = 0
    ∧ ((⟨1/2, 7⟩ : OnePoleFilter).reset.prev_output = 0) := by
  have h1 : (1 : ℕ) ≤ 4 := by norm_num
  have h2 : 1 ≤ (feedValues (DelayLine.new 4) [1, 2, 3, 4]).buffer_len := by
    show 1 ≤ 4
    norm_num
  have h3 : (0 : ℚ) ≤ 2 := by norm_num
  have h4 : (2 : ℚ) ≤ ((4 - 1 : ℕ) : ℚ) := by norm_num
  have h5 : (0 : ℚ) ≤ 1 := by norm_num
  have h6 : (1 : ℚ) ≤ (((feedValues (DelayLine.new 4) [1, 2, 3, 4]).buffer_len - 1 : ℕ) : ℚ) := by
    show (1 : ℚ) ≤ ((3 : ℕ) : ℚ)
    norm_num
  have hmain := C9_silence_after_new_and_clear 4 h1
    (feedValues (DelayLine.new 4) [1, 2, 3, 4]) h2 ⟨1/2, 7⟩ 2 1 h3 h4 h5 h6
  exact ⟨h1, h2, h3, h4, h5, h6, hmain.2.2.1, hmain.2.2.2.2.2.1, hmain.2.2.2.2.2.2.1⟩

/-- C10: for every delay line of capacity ≥ 1 and every rational delay
argument (negative and over-capacity values included), the integer delay
is clamped below capacity and both ring indices land strictly inside
`[0, capacity)`, so the two buffer accesses in `read` cannot panic. -/
theorem C10_read_indices_in_bounds (dl : DelayLine) (q : ℚ)
    (h : 1 ≤ dl.buffer_len) :
    dl.delay_int q ≤ dl.buffer_len - 1
    ∧ dl.index_a q < dl.buffer_len
    ∧ dl.index_b q < dl.buffer_len := by
  refine ⟨?_, Nat.mod_lt _ (by omega), Nat.mod_lt _ (by omega)⟩
  unfold DelayLine.delay_int DelayLine.delay_clamped
  calc ⌊min (max q 0) ((dl.buffer_len - 1 : ℕ) : ℚ)⌋₊
      ≤ ⌊((dl.buffer_len - 1 : ℕ) : ℚ)⌋₊ :=
        Nat.floor_le_floor (min_le_right _ _)
    _ = dl.buffer_len - 1 := Nat.floor_natCast _

/-- C10 witness: capacity 3, negative delay argument `-7/2`. -/
theorem C10_read_indices_in_bounds_witness :
    (1 ≤ (DelayLine.new 3).buffer_len)
    ∧ ((DelayLine.new 3).delay_int (-7/2) ≤ (DelayLine.new 3).buffer_len - 1
      ∧ (DelayLine.new 3).index_a (-7/2) < (DelayLine.new 3).buffer_len
      ∧ (DelayLine.new 3).index_b (-7/2) < (DelayLine.new 3).buffer_len) :=
  ⟨by norm_num [DelayLine.new],
    C10_read_indices_in_bounds (DelayLine.new 3) (-7/2) (by norm_num [DelayLine.new])⟩
